import Mathlib

set_option maxHeartbeats 1000000

/-!
Shallow embedding of the neural_recording_demo pipeline
(src/neural_recording_demo/neural_pipeline.py together with the populate
trigger in src/neural_recording_demo/gui_app.py).

The embedding models:
  * the composite Recording key (subject_id, session_id, recording_id);
  * the Recording parent row (num_channels, sampling_rate, recording_time);
  * RecordingStats.make: synthetic signal generation (Gaussian baseline,
    exponentially decaying spike overlays at random channel/time offsets)
    followed by reduction to mean absolute amplitude, peak absolute
    amplitude and a thresholded standard deviation;
  * the derived-table populator (DataJoint populate), which is not part of
    the repository sources and is therefore modelled from the spec.

Randomness is made explicit: a RandSrc structure supplies the raw draws, and
each bounded integer draw of np.random.randint(lo, hi) is modelled as
lo + raw mod (hi - lo), which errors exactly when the range is empty, as
randint does.  Floats are modelled as exact rationals where the code only
does arithmetic and comparisons, and as reals inside the signal, whose
values pass through Real.exp and Real.sqrt.  The NaN produced by np.std of
an empty selection is modelled by the none case of an Option.
-/

/-- Composite primary key of a Recording row and of its RecordingStats row:
subject_id, session_id, recording_id. -/
structure RecKey where
  subject_id : ℤ
  session_id : ℤ
  recording_id : ℤ
deriving DecidableEq

/-- A Recording parent row as fetched by make: its key plus the non-key
attributes recording_time, num_channels and sampling_rate. -/
structure RecordingRow where
  key : RecKey
  recording_time : ℚ
  num_channels : ℤ
  sampling_rate : ℚ
deriving DecidableEq

/-- The three derived scalars computed by make.  noise_level is an Option:
none models the NaN that np.std returns on an empty selection. -/
structure Stats where
  mean_amplitude : ℝ
  peak_amplitude : ℝ
  noise_level : Option ℝ

/-- A RecordingStats child row: the parent key plus the derived scalars. -/
structure StatsRow where
  key : RecKey
  mean_amplitude : ℝ
  peak_amplitude : ℝ
  noise_level : Option ℝ

/-- The two bounded random draws inside the spike loop, in source order:
the channel draw np.random.randint(0, num_channels) and the spike-time draw
np.random.randint(0, num_samples - 100). -/
inductive RandSite where
  | channelDraw
  | spikeTimeDraw
deriving DecidableEq

/-- Errors of the make/insert pipeline: a ValueError from np.random.randn
on a negative dimension, a ValueError from np.random.randint on an empty
range (tagged with the draw site), and the defensive DuplicateKey of the
store insert. -/
inductive MakeError where
  | dimensionError
  | emptyRange (site : RandSite)
  | duplicateKey
deriving DecidableEq

/-- An explicit random source for one invocation of make: the standard
normal draws of np.random.randn indexed by channel and sample, the raw
integers behind the randint draws, and the uniform(50, 150) spike
amplitudes. -/
structure RandSrc where
  baseline : ℤ → ℤ → ℝ
  rawNumSpikes : ℤ
  rawChannel : ℕ → ℤ
  rawTime : ℕ → ℤ
  amp : ℕ → ℝ

/-- Validity of a random source: each spike amplitude lies in the
half-open interval [50, 150) drawn by np.random.uniform(50, 150). -/
def RandSrc.Valid (r : RandSrc) : Prop :=
  ∀ i, 50 ≤ r.amp i ∧ r.amp i < 150

/-- The fixed recording duration of make: duration_seconds = 10. -/
def durationSeconds : ℤ := 10

/-- Sample count of the synthetic signal:
num_samples = int(duration_seconds * sampling_rate).  Python int()
truncates toward zero, so on the exact fraction
duration_seconds * num / den this is the t-division of the scaled
numerator by the (positive) denominator. -/
def numSamples (p : RecordingRow) : ℤ :=
  (durationSeconds * p.sampling_rate.num).tdiv p.sampling_rate.den

/-- Number of spike overlays: np.random.randint(50, 200), a value in
[50, 200) selected by the raw draw modulo the range size. -/
def numSpikes (r : RandSrc) : ℕ :=
  (50 + r.rawNumSpikes.emod 150).toNat

/-- Channel of the i-th spike: np.random.randint(0, num_channels),
a value in [0, C) selected by the raw draw modulo C. -/
def spikeChannel (r : RandSrc) (C : ℤ) (i : ℕ) : ℤ :=
  (r.rawChannel i).emod C

/-- Start sample of the i-th spike: np.random.randint(0, num_samples - 100),
a value in [0, n - 100) selected by the raw draw modulo n - 100. -/
def spikeTime (r : RandSrc) (n : ℤ) (i : ℕ) : ℤ :=
  (r.rawTime i).emod (n - 100)

/-- The spike decay template np.exp(-np.linspace(0, 5, 100)) at offset i:
linspace places 5 * i / 99 at index i. -/
noncomputable def decay (i : ℤ) : ℝ :=
  Real.exp (-(5 * (i : ℝ) / 99))

/-- The baseline signal np.random.randn(num_channels, num_samples) * 10. -/
noncomputable def baseSignal (r : RandSrc) : ℤ → ℤ → ℝ :=
  fun c s => 10 * r.baseline c s

/-- One spike overlay: signal[channel, t : t+100] += a * decay, which adds
a * decay (s - t) to the 100 samples t ≤ s < t + 100 of one channel and
leaves every other entry unchanged. -/
noncomputable def applySpike (c t : ℤ) (a : ℝ) (sig : ℤ → ℤ → ℝ) : ℤ → ℤ → ℝ :=
  fun ch s =>
    if ch = c ∧ t ≤ s ∧ s < t + 100 then sig ch s + a * decay (s - t)
    else sig ch s

/-- The full synthetic signal: the baseline with all num_spikes spike
overlays applied in loop order. -/
noncomputable def overlay (r : RandSrc) (C n : ℤ) : ℤ → ℤ → ℝ :=
  (List.range (numSpikes r)).foldl
    (fun sig i => applySpike (spikeChannel r C i) (spikeTime r n i) (r.amp i) sig)
    (baseSignal r)

/-- All entries of the (C, n) signal matrix as a flat list, the flattening
np.mean, np.max and boolean masking operate over. -/
def sampleList (C n : ℤ) (sig : ℤ → ℤ → ℝ) : List ℝ :=
  (List.range C.toNat).flatMap fun c =>
    (List.range n.toNat).map fun s => sig (c : ℤ) (s : ℤ)

/-- Arithmetic mean of a list of reals, as np.mean on a nonempty array. -/
noncomputable def listMean (l : List ℝ) : ℝ :=
  l.sum / l.length

/-- Population variance of a list of reals (np.std uses ddof = 0). -/
noncomputable def listVar (l : List ℝ) : ℝ :=
  ((l.map fun x => (x - listMean l) ^ 2).sum) / l.length

/-- Population standard deviation of a list of reals, as np.std on a
nonempty array. -/
noncomputable def listStd (l : List ℝ) : ℝ :=
  Real.sqrt (listVar l)

/-- The statistics reduction of make:
mean_amplitude = np.mean(np.abs(signal)),
peak_amplitude = np.max(np.abs(signal)),
noise_level = np.std(signal[signal < 20]), with none for the NaN that
np.std yields when no entry of the signal is below 20. -/
noncomputable def computeStats (C n : ℤ) (sig : ℤ → ℤ → ℝ) : Stats :=
  let l := sampleList C n sig
  { mean_amplitude := listMean (l.map fun x => |x|)
    peak_amplitude := (l.map fun x => |x|).foldr max 0
    noise_level :=
      match l.filter (fun x => decide (x < 20)) with
      | [] => none
      | xs => some (listStd xs) }

/-- The error, determined by the parent row alone, that the signal
generation of make raises: np.random.randn rejects a negative dimension;
otherwise the first spike iteration draws the channel from an empty range
when num_channels = 0, and then the spike time from an empty range when
num_samples ≤ 100.  none means the signal generation succeeds. -/
def makeErr (p : RecordingRow) : Option MakeError :=
  if p.num_channels < 0 ∨ numSamples p < 0 then some .dimensionError
  else if p.num_channels = 0 then some (.emptyRange .channelDraw)
  else if numSamples p ≤ 100 then some (.emptyRange .spikeTimeDraw)
  else none

/-- The compute part of RecordingStats.make for one parent row and one
random source: generate the synthetic signal and reduce it to the three
scalars, or fail with the error the generation raises. -/
noncomputable def makeRow (p : RecordingRow) (r : RandSrc) : Except MakeError Stats :=
  if p.num_channels < 0 ∨ numSamples p < 0 then .error .dimensionError
  else if p.num_channels = 0 then .error (.emptyRange .channelDraw)
  else if numSamples p ≤ 100 then .error (.emptyRange .spikeTimeDraw)
  else .ok (computeStats p.num_channels (numSamples p) (overlay r p.num_channels (numSamples p)))

/-- Whether the child table holds a row with the given key. -/
def hasKey (child : List StatsRow) (k : RecKey) : Bool :=
  child.any fun s => decide (s.key = k)

/-- The first child row with the given key, if any. -/
def findRow (child : List StatsRow) (k : RecKey) : Option StatsRow :=
  child.find? fun s => decide (s.key = k)

/-- Modelled from the spec: the store insert of section 6, which fails
with DuplicateKey when a row with the same key already exists and appends
the row otherwise.  The store itself (DataJoint/MySQL) is not part of the
repository sources. -/
def insertChild (child : List StatsRow) (row : StatsRow) :
    Except MakeError (List StatsRow) :=
  if hasKey child row.key then .error .duplicateKey
  else .ok (child ++ [row])

/-- RecordingStats.make for one pending parent row acting on the child
table: compute the scalars and insert1 the row that spreads the invoked
key together with the three computed attributes. -/
noncomputable def makeInsert (p : RecordingRow) (child : List StatsRow) (r : RandSrc) :
    Except MakeError (List StatsRow) :=
  match makeRow p r with
  | .error e => .error e
  | .ok st => insertChild child ⟨p.key, st.mean_amplitude, st.peak_amplitude, st.noise_level⟩

/-- Modelled from the spec: the derived-table populator
(RecordingStats.populate, provided by DataJoint, not by the repository
sources).  It walks the parent rows, skips every key already present in
the child table (so the keys it processes are exactly the pending set
Recording minus RecordingStats), runs make on each remaining key, and
fails fast on the first error.  It returns the resulting child table, the
number of rows inserted by this call, and the error that aborted the run,
if any. -/
noncomputable def populate (parents : List RecordingRow) (child : List StatsRow)
    (r : RecKey → RandSrc) : List StatsRow × ℕ × Option MakeError :=
  match parents with
  | [] => (child, 0, none)
  | p :: rest =>
    if hasKey child p.key then populate rest child r
    else
      match makeInsert p child (r p.key) with
      | .error e => (child, 0, some e)
      | .ok child2 =>
        let out := populate rest child2 r
        (out.1, out.2.1 + 1, out.2.2)

/-- The count the GUI reports after a run: the number of pending parent
keys, computed before the run as len(Recording() - RecordingStats()). -/
def pendingCount (parents : List RecordingRow) (child : List StatsRow) : ℕ :=
  (parents.filter fun p => !hasKey child p.key).length

/-- Modelled from the spec: noise_level as the spec describes it, the
standard deviation of exactly those samples whose magnitude is below the
fixed amplitude threshold 20, undefined when no sample qualifies. -/
noncomputable def noiseLevelSpecMagnitude (l : List ℝ) : Option ℝ :=
  if (l.filter fun x => decide (|x| < 20)).isEmpty then none
  else some (listStd (l.filter fun x => decide (|x| < 20)))

/-- Modelled from the spec, amended to the source comparison: noise_level
as the standard deviation of exactly those samples whose signed value is
below 20, defined exactly when at least one sample is below 20. -/
noncomputable def noiseLevelSpecSigned (l : List ℝ) : Option ℝ :=
  if l.any (fun x => decide (x < 20)) then
    some (listStd (l.filter fun x => decide (x < 20)))
  else none

/-! ### Concrete sample data

Rows mirroring populate_sample_data() in the source (subject 1, session 1,
recordings 1 and 2 at 32 channels and 30000 Hz; a 25000 Hz row), one row
with a tiny sampling rate, a fixed random source, and a small signal used
to evaluate the development on closed inputs. -/

def sKeyA : RecKey := ⟨1, 1, 1⟩

def sKeyB : RecKey := ⟨1, 1, 2⟩

def sRowA : RecordingRow := ⟨sKeyA, 930, 32, 30000⟩

def sRowB : RecordingRow := ⟨sKeyB, 1015, 32, 30000⟩

def sRowSlow : RecordingRow := ⟨sKeyB, 1015, 32, 25000⟩

def sRowTiny : RecordingRow := ⟨sKeyB, 1015, 4, 5⟩

/-- A fixed random source: every baseline draw is 3, every raw integer
draw is 0 and every spike amplitude is exactly 50. -/
noncomputable def sRand : RandSrc :=
  ⟨fun _ _ => 3, 0, fun _ => 0, fun _ => 0, fun _ => 50⟩

/-- A pre-existing child row for key (1, 1, 1) with zero attributes. -/
noncomputable def sChildRow : StatsRow := ⟨sKeyA, 0, 0, none⟩

/-- A one-channel, three-sample signal holding the values -100, 0, 0. -/
noncomputable def sSig : ℤ → ℤ → ℝ :=
  fun _ s => if s = 0 then -100 else 0

/-! ### Helper lemmas about make -/

/-- The stats make computes for a parent row from a random source, when the
signal generation succeeds. -/
noncomputable def statsOf (p : RecordingRow) (r : RandSrc) : Stats :=
  computeStats p.num_channels (numSamples p) (overlay r p.num_channels (numSamples p))

/-- The child row make inserts for a parent row: the invoked key spread
together with the three computed attributes. -/
noncomputable def statsRowOf (p : RecordingRow) (r : RandSrc) : StatsRow :=
  ⟨p.key, (statsOf p r).mean_amplitude, (statsOf p r).peak_amplitude,
    (statsOf p r).noise_level⟩

theorem makeRow_error_iff (p : RecordingRow) (r : RandSrc) (e : MakeError) :
    makeRow p r = .error e ↔ makeErr p = some e := by
  unfold makeRow makeErr
  split_ifs <;> simp

theorem makeRow_ok_iff (p : RecordingRow) (r : RandSrc) (st : Stats) :
    makeRow p r = .ok st ↔ makeErr p = none ∧ st = statsOf p r := by
  unfold makeRow makeErr statsOf
  split_ifs <;> simp [eq_comm]

theorem makeInsert_error_of_makeErr (p : RecordingRow) (child : List StatsRow)
    (r : RandSrc) (e : MakeError) (h : makeErr p = some e) :
    makeInsert p child r = .error e := by
  unfold makeInsert
  rw [(makeRow_error_iff p r e).mpr h]

theorem makeErr_of_makeInsert_error (p : RecordingRow) (child : List StatsRow)
    (r : RandSrc) (e : MakeError) (hk : hasKey child p.key = false)
    (h : makeInsert p child r = .error e) : makeErr p = some e := by
  unfold makeInsert at h
  cases hr : makeRow p r with
  | error e' =>
    rw [hr] at h
    cases h
    exact (makeRow_error_iff p r e).mp hr
  | ok st =>
    rw [hr] at h
    unfold insertChild at h
    simp [hk] at h

theorem makeInsert_ok_of_makeErr (p : RecordingRow) (child : List StatsRow)
    (r : RandSrc) (hk : hasKey child p.key = false) (h : makeErr p = none) :
    makeInsert p child r = .ok (child ++ [statsRowOf p r]) := by
  unfold makeInsert
  rw [(makeRow_ok_iff p r (statsOf p r)).mpr ⟨h, rfl⟩]
  unfold insertChild
  simp [hk, statsRowOf]

theorem makeInsert_ok_shape (p : RecordingRow) (child c2 : List StatsRow)
    (r : RandSrc) (h : makeInsert p child r = .ok c2) :
    hasKey child p.key = false ∧ c2 = child ++ [statsRowOf p r] := by
  unfold makeInsert at h
  cases hr : makeRow p r with
  | error e => rw [hr] at h; cases h
  | ok st =>
    rw [hr] at h
    unfold insertChild at h
    by_cases hk : hasKey child p.key
    · simp [hk] at h
    · simp only [Bool.not_eq_true] at hk
      simp only [hk, Bool.false_eq_true, if_false, Except.ok.injEq] at h
      refine ⟨hk, ?_⟩
      obtain ⟨-, hst⟩ := (makeRow_ok_iff p r st).mp hr
      subst hst
      exact h.symm

/-! ### Helper lemmas about the populator -/

theorem hasKey_append (l₁ l₂ : List StatsRow) (k : RecKey) :
    hasKey (l₁ ++ l₂) k = (hasKey l₁ k || hasKey l₂ k) := by
  unfold hasKey
  exact List.any_append

theorem populate_nil (child : List StatsRow) (r : RecKey → RandSrc) :
    populate [] child r = (child, 0, none) := rfl

theorem populate_hasKey_mono (parents : List RecordingRow) (child : List StatsRow)
    (r : RecKey → RandSrc) (k : RecKey) (h : hasKey child k = true) :
    hasKey (populate parents child r).1 k = true := by
  induction parents generalizing child with
  | nil => simpa [populate]
  | cons p rest ih =>
    by_cases hk : hasKey child p.key
    · simpa [populate, hk] using ih child h
    · simp only [Bool.not_eq_true] at hk
      cases hmi : makeInsert p child (r p.key) with
      | error e => simpa [populate, hk, hmi]
      | ok c2 =>
        obtain ⟨-, hc2⟩ := makeInsert_ok_shape p child c2 (r p.key) hmi
        have h2 : hasKey c2 k = true := by
          rw [hc2, hasKey_append, h]; rfl
        simpa [populate, hk, hmi] using ih c2 h2

theorem populate_grows (parents : List RecordingRow) (child : List StatsRow)
    (r : RecKey → RandSrc) :
    ∃ ext, (populate parents child r).1 = child ++ ext := by
  induction parents generalizing child with
  | nil => exact ⟨[], by simp [populate]⟩
  | cons p rest ih =>
    by_cases hk : hasKey child p.key
    · simpa [populate, hk] using ih child
    · simp only [Bool.not_eq_true] at hk
      cases hmi : makeInsert p child (r p.key) with
      | error e => exact ⟨[], by simp [populate, hk, hmi]⟩
      | ok c2 =>
        obtain ⟨-, hc2⟩ := makeInsert_ok_shape p child c2 (r p.key) hmi
        obtain ⟨ext, hext⟩ := ih c2
        refine ⟨[statsRowOf p (r p.key)] ++ ext, ?_⟩
        simp only [populate, hk, Bool.false_eq_true, if_false, hmi]
        rw [hext, hc2, List.append_assoc]

theorem findRow_append_left (child ext : List StatsRow) (k : RecKey) (s : StatsRow)
    (h : findRow child k = some s) : findRow (child ++ ext) k = some s := by
  unfold findRow at h ⊢
  rw [List.find?_append, h]
  rfl

theorem hasKey_iff_findRow (child : List StatsRow) (k : RecKey) :
    hasKey child k = true ↔ ∃ s, findRow child k = some s := by
  unfold hasKey findRow
  rw [List.any_eq_true, ← List.find?_isSome, Option.isSome_iff_exists]

theorem populate_length (parents : List RecordingRow) (child : List StatsRow)
    (r : RecKey → RandSrc) :
    (populate parents child r).1.length = child.length + (populate parents child r).2.1 := by
  induction parents generalizing child with
  | nil => simp [populate]
  | cons p rest ih =>
    by_cases hk : hasKey child p.key
    · simpa [populate, hk] using ih child
    · simp only [Bool.not_eq_true] at hk
      cases hmi : makeInsert p child (r p.key) with
      | error e => simp [populate, hk, hmi]
      | ok c2 =>
        obtain ⟨-, hc2⟩ := makeInsert_ok_shape p child c2 (r p.key) hmi
        have := ih c2
        simp only [populate, hk, Bool.false_eq_true, if_false, hmi]
        rw [this, hc2]
        simp
        omega

theorem populate_not_duplicateKey (parents : List RecordingRow) (child : List StatsRow)
    (r : RecKey → RandSrc) :
    (populate parents child r).2.2 ≠ some MakeError.duplicateKey := by
  induction parents generalizing child with
  | nil => simp [populate]
  | cons p rest ih =>
    by_cases hk : hasKey child p.key
    · simpa [populate, hk] using ih child
    · simp only [Bool.not_eq_true] at hk
      cases hmi : makeInsert p child (r p.key) with
      | error e =>
        have he : makeErr p = some e := makeErr_of_makeInsert_error p child (r p.key) e hk hmi
        simp only [populate, hk, Bool.false_eq_true, if_false, hmi]
        intro hcontra
        simp only [Option.some.injEq] at hcontra
        subst hcontra
        unfold makeErr at he
        split_ifs at he <;> simp_all
      | ok c2 => simpa [populate, hk, hmi] using ih c2

/-! ### Claims about the populator -/

/-- C1: For every store state, running the populator (RecordingStats.populate
over the pending set Recording minus RecordingStats) twice in succession
with no parent Recording rows inserted in between yields the same
RecordingStats set after the second run as after the first, and the second
run inserts zero additional child rows (and reports the same outcome). -/
theorem populate_idempotent (parents : List RecordingRow) (child : List StatsRow)
    (r1 r2 : RecKey → RandSrc) :
    populate parents (populate parents child r1).1 r2
      = ((populate parents child r1).1, 0, (populate parents child r1).2.2) := by
  induction parents generalizing child with
  | nil => simp [populate]
  | cons p rest ih =>
    by_cases hk : hasKey child p.key
    · have h1 : populate (p :: rest) child r1 = populate rest child r1 := by
        simp [populate, hk]
      have hk1 : hasKey (populate rest child r1).1 p.key = true :=
        populate_hasKey_mono rest child r1 p.key hk
      rw [h1, show populate (p :: rest) (populate rest child r1).1 r2
          = populate rest (populate rest child r1).1 r2 by simp [populate, hk1]]
      exact ih child
    · simp only [Bool.not_eq_true] at hk
      cases hmi : makeInsert p child (r1 p.key) with
      | error e =>
        have he : makeErr p = some e :=
          makeErr_of_makeInsert_error p child (r1 p.key) e hk hmi
        have hmi2 : makeInsert p child (r2 p.key) = .error e :=
          makeInsert_error_of_makeErr p child (r2 p.key) e he
        simp [populate, hk, hmi, hmi2]
      | ok c2 =>
        obtain ⟨-, hc2⟩ := makeInsert_ok_shape p child c2 (r1 p.key) hmi
        have hkc2 : hasKey c2 p.key = true := by
          rw [hc2, hasKey_append]
          simp [hasKey, statsRowOf]
        have hk1 : hasKey (populate rest c2 r1).1 p.key = true :=
          populate_hasKey_mono rest c2 r1 p.key hkc2
        have h1 : populate (p :: rest) child r1
            = ((populate rest c2 r1).1, (populate rest c2 r1).2.1 + 1,
               (populate rest c2 r1).2.2) := by
          simp [populate, hk, hmi]
        rw [h1, show populate (p :: rest) (populate rest c2 r1).1 r2
            = populate rest (populate rest c2 r1).1 r2 by simp [populate, hk1]]
        exact ih c2

/-- C2: After the populator runs to completion without error, for every
parent key k in the Recording table there exists a RecordingStats row with
key k, so the pending set Recording minus RecordingStats is empty. -/
theorem populate_complete (parents : List RecordingRow) (child : List StatsRow)
    (r : RecKey → RandSrc) (p : RecordingRow)
    (hok : (populate parents child r).2.2 = none) (hp : p ∈ parents) :
    hasKey (populate parents child r).1 p.key = true := by
  revert hok hp
  induction parents generalizing child with
  | nil =>
    intro _ hp
    cases hp
  | cons q rest ih =>
    intro hok hp
    by_cases hk : hasKey child q.key
    · have h1 : populate (q :: rest) child r = populate rest child r := by
        simp [populate, hk]
      rw [h1] at hok ⊢
      rcases List.mem_cons.mp hp with hq | hq
      · subst hq
        exact populate_hasKey_mono rest child r p.key hk
      · exact ih child hok hq
    · simp only [Bool.not_eq_true] at hk
      cases hmi : makeInsert q child (r q.key) with
      | error e => simp [populate, hk, hmi] at hok
      | ok c2 =>
        obtain ⟨-, hc2⟩ := makeInsert_ok_shape q child c2 (r q.key) hmi
        have h1 : (populate (q :: rest) child r).1 = (populate rest c2 r).1 := by
          simp [populate, hk, hmi]
        have h2 : (populate (q :: rest) child r).2.2 = (populate rest c2 r).2.2 := by
          simp [populate, hk, hmi]
        rw [h2] at hok
        rw [h1]
        rcases List.mem_cons.mp hp with hq | hq
        · subst hq
          have hkc2 : hasKey c2 p.key = true := by
            rw [hc2, hasKey_append]
            simp [hasKey, statsRowOf]
          exact populate_hasKey_mono rest c2 r p.key hkc2
        · exact ih c2 hok hq

/-- C3: For every store state in which a RecordingStats row already exists
for key k, running the populator leaves that row (its attribute values
mean_amplitude, peak_amplitude, noise_level) unchanged and never fails
with DuplicateKey, because k is excluded from the pending set. -/
theorem populate_no_overwrite (parents : List RecordingRow) (child : List StatsRow)
    (r : RecKey → RandSrc) (k : RecKey) (h : hasKey child k = true) :
    findRow (populate parents child r).1 k = findRow child k ∧
    (populate parents child r).2.2 ≠ some MakeError.duplicateKey := by
  refine ⟨?_, populate_not_duplicateKey parents child r⟩
  obtain ⟨s, hs⟩ := (hasKey_iff_findRow child k).mp h
  obtain ⟨ext, hext⟩ := populate_grows parents child r
  rw [hext, findRow_append_left child ext k s hs, hs]

/-- C4: Every child row present after a populator run either was already in
the child table or was inserted for some parent row, in which case its key
fields exactly equal the key of the parent row it was derived from, and its
attributes are the stats make computed for that same parent row; no
inserted child row carries a key different from the key make was invoked
with. -/
theorem populate_key_provenance (parents : List RecordingRow) (child : List StatsRow)
    (r : RecKey → RandSrc) (s : StatsRow) (h : s ∈ (populate parents child r).1) :
    s ∈ child ∨ ∃ p, p ∈ parents ∧ s.key = p.key ∧ s = statsRowOf p (r p.key) := by
  revert h
  induction parents generalizing child with
  | nil =>
    intro h
    simp only [populate] at h
    exact Or.inl h
  | cons p rest ih =>
    intro h
    by_cases hk : hasKey child p.key
    · rw [show populate (p :: rest) child r = populate rest child r by
        simp [populate, hk]] at h
      rcases ih child h with hc | ⟨q, hq, hkey, hst⟩
      · exact Or.inl hc
      · exact Or.inr ⟨q, List.mem_cons_of_mem p hq, hkey, hst⟩
    · simp only [Bool.not_eq_true] at hk
      cases hmi : makeInsert p child (r p.key) with
      | error e =>
        rw [show (populate (p :: rest) child r).1 = child by
          simp [populate, hk, hmi]] at h
        exact Or.inl h
      | ok c2 =>
        obtain ⟨-, hc2⟩ := makeInsert_ok_shape p child c2 (r p.key) hmi
        rw [show (populate (p :: rest) child r).1 = (populate rest c2 r).1 by
          simp [populate, hk, hmi]] at h
        rcases ih c2 h with hc | ⟨q, hq, hkey, hst⟩
        · rw [hc2] at hc
          rcases List.mem_append.mp hc with hc | hc
          · exact Or.inl hc
          · rcases List.mem_singleton.mp hc with rfl
            exact Or.inr ⟨p, List.mem_cons_self p rest, by simp [statsRowOf], rfl⟩
        · exact Or.inr ⟨q, List.mem_cons_of_mem p hq, hkey, hst⟩

/-- C8: After a successful populator run, the count reported to the caller
equals the number of child rows actually inserted by that run: the
returned insertion count equals the pending-set size the GUI reports, and
the store grows by exactly that count (so the count is not the total
number of child rows in the store whenever the child table started
nonempty). -/
theorem populate_count_reports_inserted (parents : List RecordingRow)
    (child : List StatsRow) (r : RecKey → RandSrc)
    (hnd : (parents.map fun p => p.key).Nodup)
    (hok : (populate parents child r).2.2 = none) :
    (populate parents child r).2.1 = pendingCount parents child ∧
    (populate parents child r).1.length = child.length + (populate parents child r).2.1 := by
  refine ⟨?_, populate_length parents child r⟩
  revert hnd hok
  induction parents generalizing child with
  | nil =>
    intro _ _
    simp [populate, pendingCount]
  | cons p rest ih =>
    intro hnd hok
    rw [List.map_cons, List.nodup_cons] at hnd
    obtain ⟨hnotin, hndrest⟩ := hnd
    by_cases hk : hasKey child p.key
    · have h1 : populate (p :: rest) child r = populate rest child r := by
        simp [populate, hk]
      rw [h1] at hok ⊢
      have hpend : pendingCount (p :: rest) child = pendingCount rest child := by
        simp [pendingCount, List.filter_cons, hk]
      rw [hpend]
      exact ih child hndrest hok
    · simp only [Bool.not_eq_true] at hk
      cases hmi : makeInsert p child (r p.key) with
      | error e => simp [populate, hk, hmi] at hok
      | ok c2 =>
        obtain ⟨-, hc2⟩ := makeInsert_ok_shape p child c2 (r p.key) hmi
        have h1 : (populate (p :: rest) child r).2.1 = (populate rest c2 r).2.1 + 1 := by
          simp [populate, hk, hmi]
        have h2 : (populate (p :: rest) child r).2.2 = (populate rest c2 r).2.2 := by
          simp [populate, hk, hmi]
        rw [h2] at hok
        have hpend2 : pendingCount rest c2 = pendingCount rest child := by
          unfold pendingCount
          rw [List.filter_congr]
          intro q hq
          have hne : q.key ≠ p.key := by
            intro hcontra
            exact hnotin (hcontra ▸ List.mem_map_of_mem (fun x => x.key) hq)
          rw [hc2, hasKey_append]
          have : hasKey [statsRowOf p (r p.key)] q.key = false := by
            simp [hasKey, statsRowOf]
            intro hcontra
            exact absurd hcontra.symm hne
          rw [this, Bool.or_false]
        have hpend : pendingCount (p :: rest) child = pendingCount rest child + 1 := by
          simp [pendingCount, List.filter_cons, hk]
        rw [h1, hpend, ih c2 hndrest hok, hpend2]

/-- C9: For every parent row whose sampling rate yields a positive sample
count of at most 100 and whose channel count is positive, make fails at
the spike-time draw over an empty range (np.random.randint(0,
num_samples - 100)) before reaching the insert, so the populator aborts
there and leaves the child table unchanged for that key: a strictly
stronger failure precondition than a non-positive sample count. -/
theorem populate_small_sample_aborts (p : RecordingRow) (ps : List RecordingRow)
    (child : List StatsRow) (r : RecKey → RandSrc)
    (hk : hasKey child p.key = false) (hc : 0 < p.num_channels)
    (h1 : 0 < numSamples p) (h2 : numSamples p ≤ 100) :
    populate (p :: ps) child r
      = (child, 0, some (MakeError.emptyRange RandSite.spikeTimeDraw)) := by
  have he : makeErr p = some (MakeError.emptyRange RandSite.spikeTimeDraw) := by
    unfold makeErr
    rw [if_neg (by omega), if_neg (by omega), if_pos h2]
  simp [populate, hk, makeInsert_error_of_makeErr p child (r p.key) _ he]

/-- Witness for the completeness claim: populating both sample recordings
into an empty child table succeeds and yields a row for the first key. -/
theorem populate_complete_w :
    (populate [sRowA, sRowB] [] fun _ => sRand).2.2 = none ∧
    hasKey (populate [sRowA, sRowB] [] fun _ => sRand).1 sRowA.key = true :=
  ⟨rfl, populate_complete [sRowA, sRowB] [] (fun _ => sRand) sRowA rfl (by simp)⟩

/-- Witness for the no-overwrite claim: with a pre-inserted child row for
key (1, 1, 1), a run over both sample recordings keeps that row intact and
does not fail with DuplicateKey. -/
theorem populate_no_overwrite_w :
    hasKey [sChildRow] sKeyA = true ∧
    (findRow (populate [sRowA, sRowB] [sChildRow] fun _ => sRand).1 sKeyA
        = findRow [sChildRow] sKeyA ∧
      (populate [sRowA, sRowB] [sChildRow] fun _ => sRand).2.2
        ≠ some MakeError.duplicateKey) :=
  ⟨rfl, populate_no_overwrite [sRowA, sRowB] [sChildRow] (fun _ => sRand) sKeyA rfl⟩

/-- Witness for the key-provenance claim: the row a run over the first
sample recording inserts is in the resulting table, and therefore carries
the key of the parent it was derived from. -/
theorem populate_key_provenance_w :
    statsRowOf sRowA sRand ∈ (populate [sRowA] [] fun _ => sRand).1 ∧
    (statsRowOf sRowA sRand ∈ ([] : List StatsRow) ∨
      ∃ p, p ∈ [sRowA] ∧ (statsRowOf sRowA sRand).key = p.key ∧
        statsRowOf sRowA sRand = statsRowOf p ((fun _ => sRand) p.key)) :=
  ⟨List.mem_singleton.mpr rfl,
    populate_key_provenance [sRowA] [] (fun _ => sRand) (statsRowOf sRowA sRand)
      (List.mem_singleton.mpr rfl)⟩

/-- Witness for the reported-count claim: with one of the two sample keys
already populated, the run succeeds and reports exactly the pending count,
growing the store by that number. -/
theorem populate_count_reports_inserted_w :
    ([sRowA, sRowB].map fun p => p.key).Nodup ∧
    (populate [sRowA, sRowB] [sChildRow] fun _ => sRand).2.2 = none ∧
    ((populate [sRowA, sRowB] [sChildRow] fun _ => sRand).2.1
        = pendingCount [sRowA, sRowB] [sChildRow] ∧
      (populate [sRowA, sRowB] [sChildRow] fun _ => sRand).1.length
        = ([sChildRow] : List StatsRow).length
          + (populate [sRowA, sRowB] [sChildRow] fun _ => sRand).2.1) :=
  ⟨by decide, rfl,
    populate_count_reports_inserted [sRowA, sRowB] [sChildRow] (fun _ => sRand)
      (by decide) rfl⟩

/-- Witness for the small-sample-abort claim: the 5 Hz row yields 50
samples, so the populator aborts at the spike-time draw and inserts
nothing. -/
theorem populate_small_sample_aborts_w :
    hasKey [] sRowTiny.key = false ∧ 0 < sRowTiny.num_channels ∧
    0 < numSamples sRowTiny ∧ numSamples sRowTiny ≤ 100 ∧
    populate [sRowTiny] [] (fun _ => sRand)
      = ([], 0, some (MakeError.emptyRange RandSite.spikeTimeDraw)) :=
  ⟨rfl, by decide, by decide, by decide,
    populate_small_sample_aborts sRowTiny [] [] (fun _ => sRand) rfl
      (by decide) (by decide) (by decide)⟩

/-! ### Helper lemmas about the statistics reduction -/

theorem computeStats_mean (C n : ℤ) (sig : ℤ → ℤ → ℝ) :
    (computeStats C n sig).mean_amplitude
      = listMean ((sampleList C n sig).map fun x => |x|) := rfl

theorem computeStats_peak (C n : ℤ) (sig : ℤ → ℤ → ℝ) :
    (computeStats C n sig).peak_amplitude
      = ((sampleList C n sig).map fun x => |x|).foldr max 0 := rfl

theorem computeStats_noise (C n : ℤ) (sig : ℤ → ℤ → ℝ) :
    (computeStats C n sig).noise_level
      = match (sampleList C n sig).filter (fun x => decide (x < 20)) with
        | [] => none
        | xs => some (listStd xs) := rfl

theorem foldr_max_init_le (l : List ℝ) (b : ℝ) : b ≤ l.foldr max b := by
  induction l with
  | nil => exact le_refl b
  | cons x t ih => exact le_trans ih (le_max_right x _)

theorem mem_le_foldr_max (l : List ℝ) (b x : ℝ) (hx : x ∈ l) : x ≤ l.foldr max b := by
  induction l with
  | nil => cases hx
  | cons y t ih =>
    rcases List.mem_cons.mp hx with rfl | h
    · exact le_max_left _ _
    · exact le_trans (ih h) (le_max_right _ _)

theorem sum_le_length_mul (l : List ℝ) (B : ℝ) (h : ∀ x ∈ l, x ≤ B) :
    l.sum ≤ l.length * B := by
  induction l with
  | nil => simp
  | cons x t ih =>
    simp only [List.sum_cons, List.length_cons]
    have hx := h x (List.mem_cons_self x t)
    have ht := ih fun y hy => h y (List.mem_cons_of_mem x hy)
    push_cast
    nlinarith [ht, hx]

theorem listMean_le_of_forall_le (l : List ℝ) (B : ℝ) (hB : 0 ≤ B)
    (h : ∀ x ∈ l, x ≤ B) : listMean l ≤ B := by
  unfold listMean
  cases l with
  | nil => simpa using hB
  | cons x t =>
    have hlen : (0:ℝ) < ((x :: t).length : ℝ) := by
      simp only [List.length_cons]
      push_cast
      positivity
    rw [div_le_iff₀ hlen]
    have := sum_le_length_mul (x :: t) B h
    nlinarith [this]

theorem listMean_nonneg (l : List ℝ) (h : ∀ x ∈ l, 0 ≤ x) : 0 ≤ listMean l := by
  unfold listMean
  exact div_nonneg (List.sum_nonneg h) (Nat.cast_nonneg _)

theorem computeStats_bounds (C n : ℤ) (sig : ℤ → ℤ → ℝ) :
    (computeStats C n sig).mean_amplitude ≤ (computeStats C n sig).peak_amplitude ∧
    0 ≤ (computeStats C n sig).mean_amplitude ∧
    0 ≤ (computeStats C n sig).peak_amplitude ∧
    0 ≤ (computeStats C n sig).noise_level.getD 0 := by
  refine ⟨?_, ?_, ?_, ?_⟩
  · rw [computeStats_mean, computeStats_peak]
    apply listMean_le_of_forall_le
    · exact foldr_max_init_le _ 0
    · intro x hx
      exact mem_le_foldr_max _ 0 x hx
  · rw [computeStats_mean]
    apply listMean_nonneg
    intro x hx
    rcases List.mem_map.mp hx with ⟨y, -, rfl⟩
    exact abs_nonneg y
  · rw [computeStats_peak]
    exact foldr_max_init_le _ 0
  · rw [computeStats_noise]
    cases hfil : (sampleList C n sig).filter (fun x => decide (x < 20)) with
    | nil => simp
    | cons x t =>
      simp only [Option.getD_some]
      exact Real.sqrt_nonneg _

theorem applySpike_lower (c t : ℤ) (a : ℝ) (sig : ℤ → ℤ → ℝ) (L : ℝ) (ha : 0 ≤ a)
    (hsig : ∀ ch s, L ≤ sig ch s) : ∀ ch s, L ≤ applySpike c t a sig ch s := by
  intro ch s
  unfold applySpike
  split_ifs with h
  · have hdec : 0 ≤ a * decay (s - t) := by
      apply mul_nonneg ha
      unfold decay
      exact le_of_lt (Real.exp_pos _)
    linarith [hsig ch s]
  · exact hsig ch s

theorem overlay_lower (r : RandSrc) (C n : ℤ) (L : ℝ)
    (hbase : ∀ c s, L ≤ baseSignal r c s) (hamp : ∀ i, 0 ≤ r.amp i) :
    ∀ c s, L ≤ overlay r C n c s := by
  unfold overlay
  suffices h : ∀ (is : List ℕ) (sig : ℤ → ℤ → ℝ), (∀ c s, L ≤ sig c s) →
      ∀ c s, L ≤ (is.foldl
        (fun sg i => applySpike (spikeChannel r C i) (spikeTime r n i) (r.amp i) sg)
        sig) c s by
    exact h _ _ hbase
  intro is
  induction is with
  | nil =>
    intro sig hs
    simpa using hs
  | cons i t ih =>
    intro sig hs
    simp only [List.foldl_cons]
    exact ih _ (applySpike_lower _ _ _ _ L (hamp i) hs)

theorem mem_sampleList (C n : ℤ) (sig : ℤ → ℤ → ℝ) (x : ℝ)
    (h : x ∈ sampleList C n sig) : ∃ c s, x = sig c s := by
  unfold sampleList at h
  rw [List.mem_flatMap] at h
  obtain ⟨c, -, hc⟩ := h
  rw [List.mem_map] at hc
  obtain ⟨s, -, hs⟩ := hc
  exact ⟨c, s, hs.symm⟩

theorem computeStats_noise_none (C n : ℤ) (sig : ℤ → ℤ → ℝ)
    (h : ∀ c s, (20:ℝ) ≤ sig c s) : (computeStats C n sig).noise_level = none := by
  have hfil : (sampleList C n sig).filter (fun x => decide (x < 20)) = [] := by
    rw [List.filter_eq_nil_iff]
    intro x hx
    obtain ⟨c, s, rfl⟩ := mem_sampleList C n sig x hx
    simp only [decide_eq_true_eq, not_lt]
    exact h c s
  rw [computeStats_noise, hfil]

/-! ### Claims about the statistics -/

/-- C5, counterexample to the claim as stated: for the 32-channel 30000 Hz
sample row and a valid random source whose baseline draws are all 3, make
succeeds but every sample of the signal is at least 30, so no sample lies
below the threshold 20 and noise_level is the standard deviation of an
empty selection (NaN, modelled as none) rather than a non-negative real:
the three scalars do not all satisfy the documented bounds. -/
theorem stats_bounds_cex :
    RandSrc.Valid sRand ∧ makeRow sRowA sRand = .ok (statsOf sRowA sRand) ∧
    (statsOf sRowA sRand).noise_level = none := by
  refine ⟨?_, ?_, ?_⟩
  · intro i
    constructor <;> norm_num [sRand]
  · exact (makeRow_ok_iff sRowA sRand (statsOf sRowA sRand)).mpr ⟨by decide, rfl⟩
  · unfold statsOf
    apply computeStats_noise_none
    intro c s
    have hlow : ∀ c s, (30:ℝ) ≤ overlay sRand sRowA.num_channels (numSamples sRowA) c s := by
      apply overlay_lower
      · intro c s
        norm_num [baseSignal, sRand]
      · intro i
        norm_num [sRand]
    linarith [hlow c s]

/-- C5, amended: whenever make succeeds, mean_amplitude is at most
peak_amplitude and both are non-negative, and noise_level is non-negative
whenever it is defined (it is undefined exactly when no sample of the
signal lies below the threshold 20). -/
theorem stats_bounds (p : RecordingRow) (r : RandSrc) (st : Stats)
    (h : makeRow p r = .ok st) :
    st.mean_amplitude ≤ st.peak_amplitude ∧ 0 ≤ st.mean_amplitude ∧
    0 ≤ st.peak_amplitude ∧ 0 ≤ st.noise_level.getD 0 := by
  obtain ⟨-, rfl⟩ := (makeRow_ok_iff p r st).mp h
  exact computeStats_bounds p.num_channels (numSamples p)
    (overlay r p.num_channels (numSamples p))

/-- Witness for the amended bounds claim at the first sample recording. -/
theorem stats_bounds_w :
    makeRow sRowA sRand = .ok (statsOf sRowA sRand) ∧
    ((statsOf sRowA sRand).mean_amplitude ≤ (statsOf sRowA sRand).peak_amplitude ∧
      0 ≤ (statsOf sRowA sRand).mean_amplitude ∧
      0 ≤ (statsOf sRowA sRand).peak_amplitude ∧
      0 ≤ (statsOf sRowA sRand).noise_level.getD 0) :=
  ⟨(makeRow_ok_iff sRowA sRand (statsOf sRowA sRand)).mpr ⟨by decide, rfl⟩,
    stats_bounds sRowA sRand (statsOf sRowA sRand)
      ((makeRow_ok_iff sRowA sRand (statsOf sRowA sRand)).mpr ⟨by decide, rfl⟩)⟩

/-- C6, counterexample to the claim as stated: two parent rows with equal
channel counts (32) but different sampling rates (30000 Hz and 25000 Hz)
yield different sample counts (300000 and 250000), so the sample count is
not derived from channel_count. -/
theorem numSamples_channel_cex :
    sRowA.num_channels = sRowSlow.num_channels ∧
    numSamples sRowA ≠ numSamples sRowSlow := by
  exact ⟨rfl, by decide⟩

/-- C6, amended: the sample count is derived from the sampling rate
together with the fixed 10-second recording duration, so any two parent
rows with equal sampling_rate have equal derived sample counts, whatever
their channel counts. -/
theorem numSamples_rate_congr (p q : RecordingRow)
    (h : p.sampling_rate = q.sampling_rate) : numSamples p = numSamples q := by
  unfold numSamples
  rw [h]

/-- Witness for the amended sample-count claim: the two 30000 Hz sample
rows get the same sample count. -/
theorem numSamples_rate_congr_w :
    sRowA.sampling_rate = sRowB.sampling_rate ∧
    numSamples sRowA = numSamples sRowB :=
  ⟨rfl, numSamples_rate_congr sRowA sRowB rfl⟩

/-- C7, counterexample to the claim as stated: the code masks by the
signed comparison signal < 20, not by magnitude.  On a one-channel,
three-sample signal holding -100, 0, 0 the code computes the standard
deviation of all three samples (a positive value), while the standard
deviation of the samples with magnitude below 20 is that of 0, 0, namely
zero, so noise_level differs from the spec description. -/
theorem noise_threshold_cex :
    (computeStats 1 3 sSig).noise_level ≠ noiseLevelSpecMagnitude (sampleList 1 3 sSig) := by
  have hl : sampleList 1 3 sSig = [(-100:ℝ), 0, 0] := rfl
  have hcode : (computeStats 1 3 sSig).noise_level = some (listStd [(-100:ℝ), 0, 0]) := by
    rw [computeStats_noise, hl]
    have hfil : ([(-100:ℝ), 0, 0].filter fun x => decide (x < 20)) = [(-100:ℝ), 0, 0] := by
      norm_num [List.filter_cons, List.filter_nil]
    rw [hfil]
  have habs : |(-100:ℝ)| = 100 := by
    rw [abs_of_nonpos] <;> norm_num
  have hspec : noiseLevelSpecMagnitude (sampleList 1 3 sSig) = some (listStd [(0:ℝ), 0]) := by
    rw [hl]
    unfold noiseLevelSpecMagnitude
    have hfil : ([(-100:ℝ), 0, 0].filter fun x => decide (|x| < 20)) = [(0:ℝ), 0] := by
      norm_num [List.filter_cons, List.filter_nil, habs]
    rw [hfil]
    norm_num
  rw [hcode, hspec]
  have hzero : listStd [(0:ℝ), 0] = 0 := by
    norm_num [listStd, listVar, listMean, List.sum_cons, List.sum_nil, Real.sqrt_zero]
  have hpos : listStd [(-100:ℝ), 0, 0] ≠ 0 := by
    unfold listStd
    rw [Real.sqrt_ne_zero']
    norm_num [listVar, listMean, List.sum_cons, List.sum_nil]
  simp only [Ne, Option.some.injEq, hzero]
  exact hpos

/-- C7, amended: noise_level equals the standard deviation of exactly
those samples whose signed value is below the threshold 20 (not their
magnitude), and it is defined (non-NaN) exactly when at least one sample
has value below 20. -/
theorem noise_level_signed (C n : ℤ) (sig : ℤ → ℤ → ℝ) :
    (computeStats C n sig).noise_level = noiseLevelSpecSigned (sampleList C n sig) := by
  rw [computeStats_noise]
  unfold noiseLevelSpecSigned
  by_cases h : (sampleList C n sig).any (fun x => decide (x < 20)) = true
  · rw [if_pos h]
    cases hfil : (sampleList C n sig).filter (fun x => decide (x < 20)) with
    | nil =>
      rw [List.filter_eq_nil_iff] at hfil
      rw [List.any_eq_true] at h
      obtain ⟨x, hx, hpx⟩ := h
      exact absurd hpx (hfil x hx)
    | cons y t => rfl
  · rw [if_neg h]
    have hfil : (sampleList C n sig).filter (fun x => decide (x < 20)) = [] := by
      rw [List.filter_eq_nil_iff]
      intro x hx hpx
      exact h (List.any_eq_true.mpr ⟨x, hx, hpx⟩)
    rw [hfil]

/-- C10: For every signal with more than 100 samples, a spike overlay with
draws taken from the modelled randint ranges and a uniform(50, 150)
amplitude changes the signal at an entry exactly when that entry is one of
the 100 consecutive samples starting at the drawn spike time on the drawn
channel, and every changed entry lies inside the (channels, samples)
matrix bounds: the overlay never indexes out of bounds. -/
theorem spike_overlay_bounds (r : RandSrc) (C n : ℤ) (i : ℕ) (sig : ℤ → ℤ → ℝ)
    (ch s : ℤ) (hC : 0 < C) (hn : 100 < n) (ha : 50 ≤ r.amp i) :
    (applySpike (spikeChannel r C i) (spikeTime r n i) (r.amp i) sig ch s ≠ sig ch s
      ↔ ch = spikeChannel r C i ∧ spikeTime r n i ≤ s ∧ s < spikeTime r n i + 100) ∧
    (applySpike (spikeChannel r C i) (spikeTime r n i) (r.amp i) sig ch s ≠ sig ch s →
      0 ≤ ch ∧ ch < C ∧ 0 ≤ s ∧ s < n) := by
  have ht0 : 0 ≤ spikeTime r n i := by
    unfold spikeTime
    exact Int.emod_nonneg _ (by omega)
  have ht1 : spikeTime r n i < n - 100 := by
    unfold spikeTime
    exact Int.emod_lt_of_pos _ (by omega)
  have hc0 : 0 ≤ spikeChannel r C i := by
    unfold spikeChannel
    exact Int.emod_nonneg _ (by omega)
  have hc1 : spikeChannel r C i < C := by
    unfold spikeChannel
    exact Int.emod_lt_of_pos _ hC
  have hpos : 0 < r.amp i * decay (s - spikeTime r n i) := by
    apply mul_pos (lt_of_lt_of_le (by norm_num) ha)
    unfold decay
    exact Real.exp_pos _
  have hiff : applySpike (spikeChannel r C i) (spikeTime r n i) (r.amp i) sig ch s ≠ sig ch s
      ↔ ch = spikeChannel r C i ∧ spikeTime r n i ≤ s ∧ s < spikeTime r n i + 100 := by
    unfold applySpike
    by_cases hcond : ch = spikeChannel r C i ∧ spikeTime r n i ≤ s ∧ s < spikeTime r n i + 100
    · rw [if_pos hcond]
      simp only [ne_eq, add_right_eq_self]
      exact iff_of_true hpos.ne' hcond
    · rw [if_neg hcond]
      simp [hcond]
  refine ⟨hiff, fun hne => ?_⟩
  obtain ⟨hch, hs1, hs2⟩ := hiff.mp hne
  subst hch
  omega

/-- Witness for the spike-bounds claim: a two-channel, 150-sample signal
of zeros, the fixed random source and the top-left entry. -/
theorem spike_overlay_bounds_w :
    (0:ℤ) < 2 ∧ (100:ℤ) < 150 ∧ 50 ≤ sRand.amp 0 ∧
    ((applySpike (spikeChannel sRand 2 0) (spikeTime sRand 150 0) (sRand.amp 0)
          (fun _ _ => 0) 0 0 ≠ (fun _ _ => (0:ℝ)) 0 0
        ↔ (0:ℤ) = spikeChannel sRand 2 0 ∧ spikeTime sRand 150 0 ≤ 0 ∧
          (0:ℤ) < spikeTime sRand 150 0 + 100) ∧
      (applySpike (spikeChannel sRand 2 0) (spikeTime sRand 150 0) (sRand.amp 0)
          (fun _ _ => 0) 0 0 ≠ (fun _ _ => (0:ℝ)) 0 0 →
        (0:ℤ) ≤ 0 ∧ (0:ℤ) < 2 ∧ (0:ℤ) ≤ 0 ∧ (0:ℤ) < 150)) :=
  ⟨by decide, by decide, by norm_num [sRand],
    spike_overlay_bounds sRand 2 150 0 (fun _ _ => 0) 0 0 (by decide) (by decide)
      (by norm_num [sRand])⟩
